import Mathlib

/-!
Verification of the NCP policy client (`nandaPolicy.py`).

The development shallowly embeds the policy/discovery/cache logic of
`PolicyManager`.  External I/O (HTTP transport, JSON decoding, the cache
file on disk) is abstracted into explicit input values: an HTTP exchange
becomes a `RawResponse`, the cache file becomes a `CacheFile`, and the
current wall-clock time is passed as a `DateTime` argument.  Every
function below is a direct translation of the corresponding Python
method; numeric JSON scores are modelled as rationals, dictionaries with
a fixed key set as structures, and Python dict insertion order as list
order.
-/

/-- A calendar timestamp, mirroring Python `datetime` at second
granularity (the program formats with `%d.%m.%Y %H:%M:%S`, so finer
granularity never matters). -/
structure DateTime where
  year : Nat
  month : Nat
  day : Nat
  hour : Nat
  minute : Nat
  second : Nat
deriving DecidableEq, Repr

/-- Python `datetime` comparison: lexicographic on
(year, month, day, hour, minute, second). -/
def DateTime.ltb (a b : DateTime) : Bool :=
  decide (a.year < b.year) ||
  (decide (a.year = b.year) &&
   (decide (a.month < b.month) ||
    (decide (a.month = b.month) &&
     (decide (a.day < b.day) ||
      (decide (a.day = b.day) &&
       (decide (a.hour < b.hour) ||
        (decide (a.hour = b.hour) &&
         (decide (a.minute < b.minute) ||
          (decide (a.minute = b.minute) && decide (a.second < b.second))))))))))

/-- Gregorian leap-year rule, as used by Python's calendar. -/
def isLeapYear (y : Nat) : Bool :=
  (y % 4 == 0 && y % 100 != 0) || y % 400 == 0

/-- Number of days in a month of a given year. -/
def daysInMonth (y m : Nat) : Nat :=
  if m = 2 then (if isLeapYear y then 29 else 28)
  else if m = 4 ∨ m = 6 ∨ m = 9 ∨ m = 11 then 30
  else 31

/-- One calendar day earlier, borrowing across month and year
boundaries. -/
def subOneDay (d : DateTime) : DateTime :=
  if 1 < d.day then { d with day := d.day - 1 }
  else if 1 < d.month then
    { d with month := d.month - 1, day := daysInMonth d.year (d.month - 1) }
  else
    { d with year := d.year - 1, month := 12, day := 31 }

/-- `n` calendar days earlier.  `timedelta(hours=72)` is exactly three
whole days, so the time-of-day fields are untouched. -/
def subDays : Nat → DateTime → DateTime
  | 0, d => d
  | n + 1, d => subDays n (subOneDay d)

/-- Left-pad a numeral to two digits, as `strftime` `%d`/`%m`/`%H`/`%M`/`%S` do. -/
def pad2 (n : Nat) : String :=
  if n < 10 then "0" ++ toString n else toString n

/-- Left-pad a numeral to four digits, as `strftime` `%Y` does. -/
def pad4 (n : Nat) : String :=
  if n < 10 then "000" ++ toString n
  else if n < 100 then "00" ++ toString n
  else if n < 1000 then "0" ++ toString n
  else toString n

/-- `now.strftime("%d.%m.%Y %H:%M:%S")`. -/
def formatTimestamp (d : DateTime) : String :=
  pad2 d.day ++ "." ++ pad2 d.month ++ "." ++ pad4 d.year ++ " " ++
  pad2 d.hour ++ ":" ++ pad2 d.minute ++ ":" ++ pad2 d.second

/-- Split a character list on a separator character (every occurrence,
keeping empty chunks), the behaviour of Python `str.split(sep)` and the
tool used here to take the fixed-format timestamp apart. -/
def splitOnChar (c : Char) : List Char → List (List Char)
  | [] => [[]]
  | x :: xs =>
    if x = c then [] :: splitOnChar c xs
    else
      match splitOnChar c xs with
      | [] => [[x]]
      | g :: gs => (x :: g) :: gs

/-- Decimal value of a digit list (the list must be checked for
digit-hood separately). -/
def charsToNat (l : List Char) : Nat :=
  l.foldl (fun acc c => acc * 10 + (c.toNat - 48)) 0

/-- A numeric field of one or two digits, as the `strptime` directives
`%d`/`%m`/`%H`/`%M`/`%S` accept. -/
def parseNatField (l : List Char) : Option Nat :=
  if l ≠ [] ∧ l.length ≤ 2 ∧ l.all Char.isDigit then
    some (charsToNat l)
  else none

/-- The year field: `strptime`'s `%Y` matches exactly four digits. -/
def parseYearField (l : List Char) : Option Nat :=
  if l.length = 4 ∧ l.all Char.isDigit then
    some (charsToNat l)
  else none

/-- `datetime.strptime(s, "%d.%m.%Y %H:%M:%S")`, returning `none` where
Python raises `ValueError`: the shape must be `D.M.Y H:M:S` and every
field must be in `datetime`'s accepted range (including the
day-of-month check against the calendar). -/
def parseTimestamp (s : String) : Option DateTime :=
  match splitOnChar ' ' s.data with
  | [datePart, timePart] =>
    match splitOnChar '.' datePart, splitOnChar ':' timePart with
    | [ds, ms, ys], [hs, mins, ss] =>
      match parseNatField ds, parseNatField ms, parseYearField ys,
            parseNatField hs, parseNatField mins, parseNatField ss with
      | some d, some m, some y, some h, some mi, some sec =>
        if 1 ≤ y ∧ y ≤ 9999 ∧ 1 ≤ m ∧ m ≤ 12 ∧ 1 ≤ d ∧ d ≤ daysInMonth y m ∧
           h ≤ 23 ∧ mi ≤ 59 ∧ sec ≤ 59 then
          some ⟨y, m, d, h, mi, sec⟩
        else none
      | _, _, _, _, _, _ => none
    | _, _ => none
  | _ => none

/-- A registry item (`item` dicts in the `data` array of the registry
response), with exactly the fields the policy code reads. -/
structure Item where
  id : String
  name : String
  url : String
  provider : String
  verified : Bool
  relevance_score : ℚ
  uptime : ℚ
deriving DecidableEq, Repr

/-- The `vp` lookup built by `match_policy_and_get_url` /
`_item_passes_policy` from `qualifiers_metrics`, restricted to the four
required qualifier names (`vp[name]["value"]` for each); a policy file
missing one of them is a startup-fatal configuration error outside this
model.  The `provider` value is the container of allowed providers. -/
structure Qualifiers where
  verified : Bool
  provider : List String
  relevance_score : ℚ
  uptime : ℚ
deriving DecidableEq, Repr

/-- `PolicyManager._item_passes_policy`: the conjunction of the four
mandatory checks, in source order with Python `and` short-circuiting. -/
def item_passes_policy (vp : Qualifiers) (item : Item) : Bool :=
  decide (item.verified = vp.verified) &&
  decide (item.provider ∈ vp.provider) &&
  decide (vp.relevance_score ≤ item.relevance_score) &&
  decide (vp.uptime ≤ item.uptime)

/-- The `for item in ...` loop body of `match_policy_and_get_url`; the
source inlines the same four-way conjunction as
`_item_passes_policy`. -/
def matchGo (vp : Qualifiers) : List Item → Option Item
  | [] => none
  | item :: rest =>
    if decide (item.verified = vp.verified) &&
       decide (item.provider ∈ vp.provider) &&
       decide (vp.relevance_score ≤ item.relevance_score) &&
       decide (vp.uptime ≤ item.uptime)
    then some item
    else matchGo vp rest

/-- `self.registry_response_data`: `some items` when the decoded JSON
body has a `data` key (holding the item array), `none` when it does not
(`{}` from a decode failure included); `match_policy_and_get_url` reads
it with `.get('data', [])`. -/
def registryItems (rd : Option (List Item)) : List Item :=
  rd.getD []

/-- `PolicyManager.match_policy_and_get_url`. -/
def match_policy_and_get_url (vp : Qualifiers) (rd : Option (List Item)) :
    Option Item :=
  matchGo vp (registryItems rd)

/-- Outcome of the HTTP GET + `json.loads` pipeline in
`_discover_registry`, abstracting the transport and the JSON decoder:
a transport failure (where `get_url_response` returns the
`"Error fetching the URL: ..."` string, which is never valid JSON), a
2xx body that is not valid JSON, a JSON body without a `data` key
(for example `{}`), or a JSON body with a `data` array. -/
inductive RawResponse where
  | transportFailure (msg : String)
  | invalidJson (body : String)
  | jsonNoData
  | jsonWithData (items : List Item)
deriving DecidableEq, Repr

/-- `PolicyManager._discover_registry`, reduced to the value of
`registry_response_data` it produces: the `try json.loads / except`
turns the first two cases into `{}`, which — like any JSON object
without a `data` key — contributes no items. -/
def discover_registry : RawResponse → Option (List Item)
  | .transportFailure _ => none
  | .invalidJson _ => none
  | .jsonNoData => none
  | .jsonWithData items => some items

/-- A cache entry, exactly the dict built by `update_cache`.  The
`criteria` field is the discovery-criteria dict, modelled as its
key/value pairs in insertion order. -/
structure CacheEntry where
  mcp_endpoint : String
  met_protocol_criteria : Bool
  last_cached : String
  criteria : List (String × String)
  data_item : Item
deriving DecidableEq, Repr

/-- The persisted cache: the `cached_mcp` list. -/
structure Cache where
  cached_mcp : List CacheEntry
deriving DecidableEq, Repr

/-- State of the cache file read by `load_cache`: missing, present but
failing `json.loads` (raw text retained), or decoding to a cache
value. -/
inductive CacheFile where
  | missing
  | corrupt (raw : String)
  | valid (c : Cache)
deriving DecidableEq, Repr

/-- `PolicyManager.load_cache`: a missing file or a decode failure both
yield `{"cached_mcp": []}`; a decodable file yields its contents. -/
def load_cache : CacheFile → Cache
  | .missing => ⟨[]⟩
  | .corrupt _ => ⟨[]⟩
  | .valid c => c

/-- The fixed discovery-criteria dict used by `_discover_registry` and
`get_verifiable_mcp_endpoint`, with values rendered as in
`f"{k}={v}"`. -/
def defaultCriteria : List (String × String) :=
  [("limit", "3"), ("q", "recipe"), ("tags", "nutrition"),
   ("type", "tool"), ("verified", "true")]

/-- Python `base.rstrip("?")`: remove every trailing `?` character. -/
def rstripQ (s : String) : String :=
  String.mk ((s.data.reverse.dropWhile (fun c => c = '?')).reverse)

/-- `"&".join(f"{k}={v}" for k, v in criteria.items())`. -/
def joinCriteria (criteria : List (String × String)) : String :=
  String.intercalate "&" (criteria.map (fun kv => kv.1 ++ "=" ++ kv.2))

/-- `PolicyManager.build_url`. -/
def build_url (base : String) (criteria : List (String × String)) : String :=
  rstripQ base ++ "?" ++ joinCriteria criteria

/-- Reading of the spec sentence for `build_url` (refinement target,
not source-derived): the base with any contained `?` stripped, then a
single `?`, then the joined criteria. -/
def build_url_specRead (base : String) (criteria : List (String × String)) :
    String :=
  String.mk (base.data.filter (fun c => ¬ c = '?')) ++ "?" ++
  joinCriteria criteria

/-- The entry dict `update_cache` builds before storing. -/
def entryFor (item : Item) (criteria : List (String × String))
    (now : DateTime) : CacheEntry :=
  { mcp_endpoint := item.url
    met_protocol_criteria := true
    last_cached := formatTimestamp now
    criteria := criteria
    data_item := item }

/-- How a call to `update_cache` ends: `err s` models the uncaught
`ValueError` that `datetime.strptime` raises on the unparseable stored
string `s` (the function neither returns normally nor reaches
`save_cache`); `noWrite` is the early `return` on a fresh entry (no
`save_cache` call, file untouched); `wrote c` means `save_cache(c)` ran
and `c` is now the cache file's contents. -/
inductive UpdateResult where
  | err (bad : String)
  | noWrite
  | wrote (c : Cache)
deriving DecidableEq, Repr

/-- `PolicyManager.update_cache`, over an explicit cache value and
clock.  `existing` is Python's
`next((e for e in cache.get("cached_mcp", []) if e.get("data_item", {}).get("id") == item["id"]), None)`;
the replacement index is Python's `cache["cached_mcp"].index(existing)`
(first list position holding a value equal to `existing`). -/
def update_cache (item : Item) (criteria : List (String × String))
    (cache : Cache) (now : DateTime) : UpdateResult :=
  let cutoff := subDays 3 now
  match cache.cached_mcp.find? (fun e => decide (e.data_item.id = item.id)) with
  | some existing =>
    match parseTimestamp existing.last_cached with
    | none => .err existing.last_cached
    | some last =>
      if DateTime.ltb cutoff last then .noWrite
      else
        let entry := entryFor item criteria now
        let idx := cache.cached_mcp.findIdx (fun e => decide (e = existing))
        .wrote ⟨cache.cached_mcp.set idx entry⟩
  | none => .wrote ⟨cache.cached_mcp ++ [entryFor item criteria now]⟩

/-- The cache-file contents after a call of `update_cache` that started
from contents `c`: unchanged unless `save_cache` ran. -/
def applyUpdate (c : Cache) : UpdateResult → Cache
  | .wrote c2 => c2
  | .err _ => c
  | .noWrite => c

/-- One `update_cache` call viewed as a transformer of the cache-file
contents. -/
def cacheStep (item : Item) (criteria : List (String × String))
    (c : Cache) (now : DateTime) : Cache :=
  applyUpdate c (update_cache item criteria c now)

/-- A sequence of `update_cache` calls for the same item at the given
times, threading the cache-file contents through. -/
def cacheSteps (item : Item) (criteria : List (String × String))
    (c : Cache) (times : List DateTime) : Cache :=
  times.foldl (cacheStep item criteria) c

/-- Number of cache entries whose `data_item.id` is `i`. -/
def countId (l : List CacheEntry) (i : String) : Nat :=
  (l.filter (fun e => decide (e.data_item.id = i))).length

/-- The documented cache invariant: at most one entry per
`data_item.id`, i.e. entry ids are pairwise distinct. -/
def CacheInv (c : Cache) : Prop :=
  c.cached_mcp.Pairwise (fun a b => a.data_item.id ≠ b.data_item.id)

instance (c : Cache) : Decidable (CacheInv c) := by
  unfold CacheInv; infer_instance

/-- `PolicyManager.load_cached_endpoint`, over the loaded `cached_mcp`
list: first entry whose stored `met_protocol_criteria` flag is truthy,
no re-validation. -/
def load_cached_endpoint : List CacheEntry → Option String
  | [] => none
  | e :: rest =>
    if e.met_protocol_criteria then some e.mcp_endpoint
    else load_cached_endpoint rest

/-- The cache-fallback loop of `get_verifiable_mcp_endpoint`: first
entry whose `data_item` passes `_item_passes_policy` under the current
qualifiers. -/
def cacheFallback (vp : Qualifiers) : List CacheEntry → Option String
  | [] => none
  | e :: rest =>
    if item_passes_policy vp e.data_item then some e.mcp_endpoint
    else cacheFallback vp rest

/-- `PolicyManager.get_verifiable_mcp_endpoint`, over the discovery
outcome, the cache file and the clock.  The result is `Except`: an
`.error` is the uncaught `ValueError` that `update_cache` can raise on
the live path; `.ok` carries the returned endpoint or `none`. -/
def get_verifiable_mcp_endpoint (vp : Qualifiers) (raw : RawResponse)
    (cf : CacheFile) (cacheEnabled : Bool) (now : DateTime) :
    Except String (Option String) :=
  match match_policy_and_get_url vp (discover_registry raw) with
  | some live_item =>
    if cacheEnabled then
      match update_cache live_item defaultCriteria (load_cache cf) now with
      | .err bad => .error bad
      | _ => .ok (some live_item.url)
    else .ok (some live_item.url)
  | none => .ok (cacheFallback vp (load_cache cf).cached_mcp)

/-! ## General list helpers -/

theorem find?_some_split {α : Type} (p : α → Bool) (l : List α) (a : α)
    (h : l.find? p = some a) :
    p a = true ∧ ∃ l₁ l₂, l = l₁ ++ a :: l₂ ∧ ∀ x ∈ l₁, p x = false := by
  induction l with
  | nil => simp [List.find?] at h
  | cons b t ih =>
    by_cases hb : p b = true
    · rw [List.find?_cons_of_pos _ hb] at h
      obtain rfl : b = a := by simpa using h
      exact ⟨hb, [], t, rfl, by simp⟩
    · rw [List.find?_cons_of_neg _ hb] at h
      obtain ⟨hpa, l₁, l₂, rfl, hl₁⟩ := ih h
      refine ⟨hpa, b :: l₁, l₂, rfl, ?_⟩
      intro x hx
      rcases List.mem_cons.mp hx with rfl | hx
      · simpa using hb
      · exact hl₁ x hx

theorem find?_append_first {α : Type} (p : α → Bool) (l₁ l₂ : List α) (a : α)
    (h₁ : ∀ x ∈ l₁, p x = false) (ha : p a = true) :
    (l₁ ++ a :: l₂).find? p = some a := by
  induction l₁ with
  | nil => simp [List.find?_cons_of_pos _ ha]
  | cons b t ih =>
    have hb : p b = false := h₁ b (by simp)
    rw [List.cons_append, List.find?_cons_of_neg _ (by simp [hb])]
    exact ih (fun x hx => h₁ x (by simp [hx]))

/-! ## Policy matching -/

/-- The spec's four-qualifier condition, written as a proposition (the
statement language for the matching claims). -/
def MeetsAll (vp : Qualifiers) (item : Item) : Prop :=
  item.verified = vp.verified ∧ item.provider ∈ vp.provider ∧
  vp.relevance_score ≤ item.relevance_score ∧ vp.uptime ≤ item.uptime

instance (vp : Qualifiers) (item : Item) : Decidable (MeetsAll vp item) := by
  unfold MeetsAll; infer_instance

theorem item_passes_policy_iff (vp : Qualifiers) (item : Item) :
    item_passes_policy vp item = true ↔ MeetsAll vp item := by
  simp [item_passes_policy, MeetsAll, and_assoc]

theorem matchGo_eq_find? (vp : Qualifiers) (l : List Item) :
    matchGo vp l = l.find? (item_passes_policy vp) := by
  induction l with
  | nil => rfl
  | cons it rest ih =>
    by_cases hp : item_passes_policy vp it = true
    · rw [List.find?_cons_of_pos _ hp]
      simp only [matchGo]
      rw [if_pos (by simpa [item_passes_policy] using hp)]
    · rw [List.find?_cons_of_neg _ hp]
      simp only [matchGo]
      rw [if_neg (by simpa [item_passes_policy] using hp), ih]

/-- C2: `match_policy_and_get_url` returns the first item in input
order satisfying the conjunction of the four qualifier checks, returns
`none` exactly when no item satisfies all four, and never returns an
item failing any single qualifier (any returned item meets all
four). -/
theorem match_policy_first_conjunctive (vp : Qualifiers) (items : List Item) :
    (∀ it, match_policy_and_get_url vp (some items) = some it →
      MeetsAll vp it ∧
      ∃ l₁ l₂, items = l₁ ++ it :: l₂ ∧ ∀ x ∈ l₁, ¬ MeetsAll vp x) ∧
    (match_policy_and_get_url vp (some items) = none ↔
      ∀ it ∈ items, ¬ MeetsAll vp it) ∧
    (∀ l₁ it l₂, items = l₁ ++ it :: l₂ → (∀ x ∈ l₁, ¬ MeetsAll vp x) →
      MeetsAll vp it → match_policy_and_get_url vp (some items) = some it) := by
  have hm : match_policy_and_get_url vp (some items) =
      items.find? (item_passes_policy vp) := by
    simp [match_policy_and_get_url, registryItems, matchGo_eq_find?]
  refine ⟨?_, ?_, ?_⟩
  · intro it hit
    rw [hm] at hit
    obtain ⟨hp, l₁, l₂, rfl, hl₁⟩ := find?_some_split _ _ _ hit
    refine ⟨(item_passes_policy_iff vp it).mp hp, l₁, l₂, rfl, ?_⟩
    intro x hx hmx
    have := hl₁ x hx
    rw [(item_passes_policy_iff vp x).symm.mp hmx] at this
    exact absurd this (by simp)
  · rw [hm, List.find?_eq_none]
    constructor
    · intro h it hit hmx
      exact h it hit ((item_passes_policy_iff vp it).mpr hmx)
    · intro h it hit hp
      exact h it hit ((item_passes_policy_iff vp it).mp hp)
  · intro l₁ it l₂ heq hl₁ hit
    subst heq
    rw [hm]
    refine find?_append_first _ _ _ _ ?_ ((item_passes_policy_iff vp it).mpr hit)
    intro x hx
    have := hl₁ x hx
    rcases h : item_passes_policy vp x with _ | _
    · rfl
    · exact absurd ((item_passes_policy_iff vp x).mp h) this

/-- Concrete qualifier set used by the witnesses: verified must be
true, provider must be in ["acme"], both scores at least 1. -/
def vpW : Qualifiers := ⟨true, ["acme"], 1, 1⟩

/-- Concrete item passing all four qualifiers of `vpW`. -/
def itemA : Item := ⟨"a", "alpha", "https://a.example/mcp", "acme", true, 2, 2⟩

/-- Concrete item failing only the provider qualifier of `vpW`. -/
def itemB : Item := ⟨"b", "beta", "https://b.example/mcp", "other", true, 3, 3⟩

/-- Witness for C2 at a concrete input: with `itemB` (failing only the
provider qualifier) ahead of `itemA` (passing all four), the matcher
skips `itemB` and returns `itemA`. -/
theorem match_policy_first_conjunctive_witness :
    match_policy_and_get_url vpW (some [itemB, itemA]) = some itemA :=
  (match_policy_first_conjunctive vpW [itemB, itemA]).2.2 [itemB] itemA []
    rfl (by decide) (by decide)

/-! ## Discovery degradation and cache loading -/

/-- C6: a transport failure, a non-JSON body, or a JSON body without a
`data` key all degrade discovery to zero candidates, and `resolve`
proceeds to the cache-fallback phase and returns normally (an `.ok`
value, never an exception). -/
theorem resolve_degrades_gracefully (vp : Qualifiers) (cf : CacheFile)
    (en : Bool) (now : DateTime) :
    (∀ msg, registryItems (discover_registry (.transportFailure msg)) = [] ∧
      get_verifiable_mcp_endpoint vp (.transportFailure msg) cf en now =
        .ok (cacheFallback vp (load_cache cf).cached_mcp)) ∧
    (∀ body, registryItems (discover_registry (.invalidJson body)) = [] ∧
      get_verifiable_mcp_endpoint vp (.invalidJson body) cf en now =
        .ok (cacheFallback vp (load_cache cf).cached_mcp)) ∧
    (registryItems (discover_registry .jsonNoData) = [] ∧
      get_verifiable_mcp_endpoint vp .jsonNoData cf en now =
        .ok (cacheFallback vp (load_cache cf).cached_mcp)) :=
  ⟨fun _ => ⟨rfl, rfl⟩, fun _ => ⟨rfl, rfl⟩, rfl, rfl⟩

/-- C7: `load_cache` is total (it returns a `Cache`, never an error),
and both a missing cache file and a cache file whose contents fail to
decode yield the empty cache. -/
theorem load_cache_never_errors :
    load_cache .missing = ⟨[]⟩ ∧ ∀ raw, load_cache (.corrupt raw) = ⟨[]⟩ :=
  ⟨rfl, fun _ => rfl⟩

/-! ## Concrete fixtures for the remaining witnesses -/

/-- A fixed concrete clock value. -/
def t0 : DateTime := ⟨2024, 1, 10, 12, 0, 0⟩

/-- Cache entry for `itemA` (which passes `vpW`). -/
def entryGood : CacheEntry :=
  ⟨"https://a.example/mcp", true, "01.01.2024 00:00:00", defaultCriteria, itemA⟩

/-- Cache entry whose stored flag says trusted but whose `data_item`
(`itemB`) fails the current `vpW` provider qualifier. -/
def entryStale : CacheEntry :=
  ⟨"https://b.example/mcp", true, "01.01.2024 00:00:00", defaultCriteria, itemB⟩

/-- Cache entry with `met_protocol_criteria = false`. -/
def entryUnflagged : CacheEntry :=
  ⟨"https://c.example/mcp", false, "01.01.2024 00:00:00", defaultCriteria, itemA⟩

/-! ## Cache fallback -/

theorem cacheFallback_append_first (vp : Qualifiers) (l₁ l₂ : List CacheEntry)
    (e : CacheEntry)
    (h₁ : ∀ x ∈ l₁, item_passes_policy vp x.data_item = false)
    (he : item_passes_policy vp e.data_item = true) :
    cacheFallback vp (l₁ ++ e :: l₂) = some e.mcp_endpoint := by
  induction l₁ with
  | nil => simp [cacheFallback, he]
  | cons b t ih =>
    have hb : item_passes_policy vp b.data_item = false := h₁ b (by simp)
    rw [List.cons_append]
    simp only [cacheFallback, hb]
    exact ih (fun x hx => h₁ x (by simp [hx]))

theorem cacheFallback_mem (vp : Qualifiers) (l : List CacheEntry) (u : String)
    (h : cacheFallback vp l = some u) :
    ∃ e ∈ l, item_passes_policy vp e.data_item = true ∧ e.mcp_endpoint = u := by
  induction l with
  | nil => simp [cacheFallback] at h
  | cons b t ih =>
    by_cases hb : item_passes_policy vp b.data_item = true
    · simp only [cacheFallback, hb, if_pos] at h
      exact ⟨b, by simp, hb, by simpa using h⟩
    · simp only [cacheFallback, hb, if_neg, Bool.false_eq_true,
        not_false_eq_true] at h
      obtain ⟨e, he, hp, hu⟩ := ih h
      exact ⟨e, by simp [he], hp, hu⟩

/-- C1: if the live-discovery phase of `resolve` produces no matching
item but the loaded cache contains a qualifying entry, `resolve`
returns the `mcp_endpoint` of the first entry (in stored cache order)
whose `data_item` satisfies all four current qualifiers — not
`none`. -/
theorem resolve_falls_back_to_first_passing (vp : Qualifiers)
    (raw : RawResponse) (cf : CacheFile) (en : Bool) (now : DateTime)
    (l₁ l₂ : List CacheEntry) (e : CacheEntry)
    (hlive : match_policy_and_get_url vp (discover_registry raw) = none)
    (hcache : (load_cache cf).cached_mcp = l₁ ++ e :: l₂)
    (hpre : ∀ x ∈ l₁, ¬ MeetsAll vp x.data_item)
    (hpass : MeetsAll vp e.data_item) :
    get_verifiable_mcp_endpoint vp raw cf en now = .ok (some e.mcp_endpoint) := by
  simp only [get_verifiable_mcp_endpoint, hlive, hcache]
  congr 1
  refine cacheFallback_append_first vp l₁ l₂ e ?_
    ((item_passes_policy_iff vp e.data_item).mpr hpass)
  intro x hx
  have := hpre x hx
  rcases h : item_passes_policy vp x.data_item with _ | _
  · rfl
  · exact absurd ((item_passes_policy_iff vp x.data_item).mp h) this

/-- Witness for C1 at a concrete input: live discovery yields nothing
(transport failure), the cache holds a failing entry followed by a
passing one, and `resolve` returns the passing entry's endpoint. -/
theorem resolve_falls_back_to_first_passing_witness :
    get_verifiable_mcp_endpoint vpW (.transportFailure "down")
      (.valid ⟨[entryStale, entryGood]⟩) true t0 =
      .ok (some entryGood.mcp_endpoint) :=
  resolve_falls_back_to_first_passing vpW (.transportFailure "down")
    (.valid ⟨[entryStale, entryGood]⟩) true t0 [entryStale] [] entryGood
    rfl rfl (by decide) (by decide)

/-- C3: on the cache-fallback path (live phase produced no match),
every endpoint `resolve` returns belongs to a cache entry whose
`data_item` is re-validated against the *current* qualifiers — an
entry failing any current qualifier is never the source of the result,
whatever its stored `met_protocol_criteria` flag says. -/
theorem resolve_fallback_revalidates (vp : Qualifiers) (raw : RawResponse)
    (cf : CacheFile) (en : Bool) (now : DateTime)
    (hlive : match_policy_and_get_url vp (discover_registry raw) = none) :
    ∀ u, get_verifiable_mcp_endpoint vp raw cf en now = .ok (some u) →
      ∃ e ∈ (load_cache cf).cached_mcp,
        MeetsAll vp e.data_item ∧ e.mcp_endpoint = u := by
  intro u hu
  simp only [get_verifiable_mcp_endpoint, hlive, Except.ok.injEq] at hu
  obtain ⟨e, he, hp, hend⟩ := cacheFallback_mem vp _ u hu
  exact ⟨e, he, (item_passes_policy_iff vp e.data_item).mp hp, hend⟩

/-- Witness for C3 at a concrete input: the `{}` registry response
falls back to a one-entry cache and the returned endpoint is traced to
a currently-passing entry. -/
theorem resolve_fallback_revalidates_witness :
    ∃ e ∈ (load_cache (.valid ⟨[entryGood]⟩)).cached_mcp,
      MeetsAll vpW e.data_item ∧ e.mcp_endpoint = "https://a.example/mcp" :=
  resolve_fallback_revalidates vpW .jsonNoData (.valid ⟨[entryGood]⟩) true t0
    rfl "https://a.example/mcp" rfl

/-- C9: `load_cached_endpoint` returns the `mcp_endpoint` of the first
cache entry (in stored order) whose stored `met_protocol_criteria`
flag is truthy, with no re-evaluation against the current qualifiers:
concretely, `entryStale` has the flag set although its `data_item`
fails the current `vpW` provider qualifier, and its endpoint is
returned anyway. -/
theorem load_cached_endpoint_trusts_stored_flag :
    (∀ (l₁ l₂ : List CacheEntry) (e : CacheEntry),
      (∀ x ∈ l₁, x.met_protocol_criteria = false) →
      e.met_protocol_criteria = true →
      load_cached_endpoint (l₁ ++ e :: l₂) = some e.mcp_endpoint) ∧
    (item_passes_policy vpW entryStale.data_item = false ∧
      entryStale.met_protocol_criteria = true ∧
      load_cached_endpoint [entryStale] = some entryStale.mcp_endpoint) := by
  constructor
  · intro l₁ l₂ e h₁ he
    induction l₁ with
    | nil => simp [load_cached_endpoint, he]
    | cons b t ih =>
      have hb : b.met_protocol_criteria = false := h₁ b (by simp)
      rw [List.cons_append]
      simp only [load_cached_endpoint, hb]
      exact ih (fun x hx => h₁ x (by simp [hx]))
  · exact ⟨by decide, by decide, by decide⟩

/-- Witness for C9 at a concrete input: a flag-false entry ahead of the
flag-true `entryStale` is skipped and `entryStale`'s endpoint comes
back. -/
theorem load_cached_endpoint_trusts_stored_flag_witness :
    load_cached_endpoint ([entryUnflagged] ++ entryStale :: []) =
      some entryStale.mcp_endpoint :=
  load_cached_endpoint_trusts_stored_flag.1 [entryUnflagged] [] entryStale
    (by decide) (by decide)

/-! ## URL construction -/

theorem rstripQ_eq_self (l : List Char) (h : l.getLast? ≠ some '?') :
    rstripQ (String.mk l) = String.mk l := by
  unfold rstripQ
  have hd : l.reverse.dropWhile (fun c => c = '?') = l.reverse := by
    cases hr : l.reverse with
    | nil => simp
    | cons c cs =>
      have hc : ¬ c = '?' := by
        intro hq
        apply h
        rw [← List.head?_reverse, hr, hq]
        rfl
      simp [List.dropWhile_cons, hc]
  rw [hd, List.reverse_reverse]

theorem rstripQ_append_q (s : String) : rstripQ (s ++ "?") = rstripQ s := by
  unfold rstripQ
  rw [String.data_append]
  have : (("?" : String).data) = ['?'] := rfl
  rw [this]
  simp [List.dropWhile_cons]

/-- Counterexample to C8 as stated: for a base whose `?` is *interior*
(not trailing), `build_url` keeps it, while the claimed reading (every
contained `?` stripped) removes it; the two outputs differ at this
concrete input. -/
theorem build_url_keeps_interior_q :
    build_url "https://reg.example/search?v=1" [("limit", "3")] =
      "https://reg.example/search?v=1?limit=3" ∧
    build_url_specRead "https://reg.example/search?v=1" [("limit", "3")] =
      "https://reg.example/searchv=1?limit=3" ∧
    build_url "https://reg.example/search?v=1" [("limit", "3")] ≠
      build_url_specRead "https://reg.example/search?v=1" [("limit", "3")] := by
  refine ⟨by decide, by decide, by decide⟩

/-- C8 amended: `build_url` produces the base with its *trailing* `?`
characters (only) stripped, followed by a single `?`, followed by the
criteria rendered as `key=value` pairs joined by `&`: a base not
ending in `?` is kept verbatim, and appending a `?` to the base never
changes the result.  A `?` elsewhere in the base is not removed (see
the counterexample). -/
theorem build_url_strips_trailing_q (base : String)
    (criteria : List (String × String)) :
    (base.data.getLast? ≠ some '?' →
      build_url base criteria = base ++ "?" ++ joinCriteria criteria) ∧
    build_url (base ++ "?") criteria = build_url base criteria := by
  constructor
  · intro h
    obtain ⟨l⟩ := base
    unfold build_url
    rw [rstripQ_eq_self l h]
  · unfold build_url
    rw [rstripQ_append_q]

/-- Witness for the amended C8 at a concrete input: a clean base comes
through verbatim, and one with a trailing `?` loses it. -/
theorem build_url_strips_trailing_q_witness :
    build_url "https://reg.example/api" [("q", "recipe")] =
      "https://reg.example/api" ++ "?" ++ joinCriteria [("q", "recipe")] ∧
    build_url ("https://reg.example/api" ++ "?") [("q", "recipe")] =
      build_url "https://reg.example/api" [("q", "recipe")] :=
  ⟨(build_url_strips_trailing_q "https://reg.example/api" [("q", "recipe")]).1
      (by decide),
   (build_url_strips_trailing_q "https://reg.example/api" [("q", "recipe")]).2⟩

/-! ## Cache counting helpers -/

theorem countId_nil (i : String) : countId [] i = 0 := rfl

theorem countId_cons (x : CacheEntry) (t : List CacheEntry) (i : String) :
    countId (x :: t) i =
      (if x.data_item.id = i then 1 else 0) + countId t i := by
  simp only [countId, List.filter_cons]
  split
  · rename_i h
    rw [if_pos (by simpa using h)]
    simp [Nat.add_comm]
  · rename_i h
    rw [if_neg (by simpa using h)]
    simp

theorem countId_append (l₁ l₂ : List CacheEntry) (i : String) :
    countId (l₁ ++ l₂) i = countId l₁ i + countId l₂ i := by
  simp [countId, List.filter_append]

theorem countId_eq_zero (l : List CacheEntry) (i : String) :
    countId l i = 0 ↔ ∀ e ∈ l, e.data_item.id ≠ i := by
  simp [countId, List.length_eq_zero, List.filter_eq_nil_iff]

theorem pairwise_countId_le_one (l : List CacheEntry)
    (h : l.Pairwise (fun a b => a.data_item.id ≠ b.data_item.id))
    (i : String) : countId l i ≤ 1 := by
  induction l with
  | nil => simp [countId_nil]
  | cons x t ih =>
    rw [List.pairwise_cons] at h
    rw [countId_cons]
    by_cases hx : x.data_item.id = i
    · rw [if_pos hx]
      have : countId t i = 0 := by
        rw [countId_eq_zero]
        intro e he
        rw [← hx]
        exact fun hc => (h.1 e he) hc.symm
      simp [this]
    · rw [if_neg hx]
      simpa using ih h.2

theorem findIdx_append_first_eq {α : Type} [DecidableEq α]
    (l₁ l₂ : List α) (a : α) (h : ∀ x ∈ l₁, x ≠ a) :
    (l₁ ++ a :: l₂).findIdx (fun x => decide (x = a)) = l₁.length := by
  induction l₁ with
  | nil => simp [List.findIdx_cons]
  | cons b t ih =>
    have hb : b ≠ a := h b (by simp)
    rw [List.cons_append, List.findIdx_cons]
    simp only [hb, decide_eq_true_eq, cond_eq_if, if_neg hb]
    rw [ih (fun x hx => h x (by simp [hx]))]
    simp

theorem set_length_append {α : Type} (l₁ l₂ : List α) (a e : α) :
    (l₁ ++ a :: l₂).set l₁.length e = l₁ ++ e :: l₂ := by
  induction l₁ with
  | nil => rfl
  | cons b t ih => simp [List.set, ih]

/-! ## `update_cache` branch behaviour -/

theorem update_cache_of_find?_none (item : Item)
    (criteria : List (String × String)) (cache : Cache) (now : DateTime)
    (hfind : cache.cached_mcp.find?
      (fun e => decide (e.data_item.id = item.id)) = none) :
    update_cache item criteria cache now =
      .wrote ⟨cache.cached_mcp ++ [entryFor item criteria now]⟩ := by
  unfold update_cache
  rw [hfind]

theorem update_cache_of_parse_none (item : Item)
    (criteria : List (String × String)) (cache : Cache) (now : DateTime)
    (ex : CacheEntry)
    (hfind : cache.cached_mcp.find?
      (fun e => decide (e.data_item.id = item.id)) = some ex)
    (hparse : parseTimestamp ex.last_cached = none) :
    update_cache item criteria cache now = .err ex.last_cached := by
  simp only [update_cache, hfind, hparse]

theorem update_cache_of_fresh (item : Item)
    (criteria : List (String × String)) (cache : Cache) (now : DateTime)
    (ex : CacheEntry) (last : DateTime)
    (hfind : cache.cached_mcp.find?
      (fun e => decide (e.data_item.id = item.id)) = some ex)
    (hparse : parseTimestamp ex.last_cached = some last)
    (hfresh : DateTime.ltb (subDays 3 now) last = true) :
    update_cache item criteria cache now = .noWrite := by
  simp only [update_cache, hfind, hparse]
  rw [if_pos hfresh]

theorem update_cache_of_stale (item : Item)
    (criteria : List (String × String)) (cache : Cache) (now : DateTime)
    (ex : CacheEntry) (last : DateTime)
    (hfind : cache.cached_mcp.find?
      (fun e => decide (e.data_item.id = item.id)) = some ex)
    (hparse : parseTimestamp ex.last_cached = some last)
    (hstale : DateTime.ltb (subDays 3 now) last = false) :
    ∃ l₁ l₂, cache.cached_mcp = l₁ ++ ex :: l₂ ∧
      (∀ x ∈ l₁, x.data_item.id ≠ item.id) ∧
      update_cache item criteria cache now =
        .wrote ⟨l₁ ++ entryFor item criteria now :: l₂⟩ := by
  obtain ⟨hp, l₁, l₂, hsplit, hl₁⟩ := find?_some_split _ _ _ hfind
  have hexid : ex.data_item.id = item.id := by simpa using hp
  have hne : ∀ x ∈ l₁, x ≠ ex := by
    intro x hx hxe
    have := hl₁ x hx
    rw [hxe] at this
    rw [hp] at this
    exact absurd this (by simp)
  refine ⟨l₁, l₂, hsplit, ?_, ?_⟩
  · intro x hx
    have := hl₁ x hx
    simpa using this
  · simp only [update_cache, hfind, hparse]
    rw [if_neg (by simp [hstale])]
    rw [hsplit, findIdx_append_first_eq l₁ l₂ ex hne, set_length_append]

/-! ## Step-level consequences -/

theorem cacheStep_of_absent (item : Item)
    (criteria : List (String × String)) (c : Cache) (now : DateTime)
    (h0 : countId c.cached_mcp item.id = 0) :
    countId (cacheStep item criteria c now).cached_mcp item.id = 1 := by
  have hfind : c.cached_mcp.find?
      (fun e => decide (e.data_item.id = item.id)) = none := by
    rw [List.find?_eq_none]
    intro x hx
    simpa using (countId_eq_zero _ _).mp h0 x hx
  rw [cacheStep, update_cache_of_find?_none item criteria c now hfind]
  simp only [applyUpdate]
  rw [countId_append, h0, countId_cons]
  simp [entryFor, countId_nil]

theorem cacheStep_of_present (item : Item)
    (criteria : List (String × String)) (c : Cache) (now : DateTime)
    (h1 : countId c.cached_mcp item.id = 1) :
    countId (cacheStep item criteria c now).cached_mcp item.id = 1 := by
  cases hfind : c.cached_mcp.find?
      (fun e => decide (e.data_item.id = item.id)) with
  | none =>
    exfalso
    rw [List.find?_eq_none] at hfind
    have h2 : countId c.cached_mcp item.id = 0 := by
      rw [countId_eq_zero]
      intro e he
      simpa using hfind e he
    rw [h2] at h1
    exact absurd h1 (by simp)
  | some ex =>
    have hexid : ex.data_item.id = item.id := by
      simpa using List.find?_some hfind
    cases hparse : parseTimestamp ex.last_cached with
    | none =>
      rw [cacheStep, update_cache_of_parse_none item criteria c now ex hfind hparse]
      exact h1
    | some last =>
      cases hfr : DateTime.ltb (subDays 3 now) last with
      | true =>
        rw [cacheStep,
          update_cache_of_fresh item criteria c now ex last hfind hparse hfr]
        exact h1
      | false =>
        obtain ⟨l₁, l₂, hsplit, _, hupd⟩ :=
          update_cache_of_stale item criteria c now ex last hfind hparse hfr
        rw [cacheStep, hupd]
        simp only [applyUpdate]
        rw [hsplit, countId_append, countId_cons, if_pos hexid] at h1
        rw [countId_append, countId_cons,
          if_pos (show (entryFor item criteria now).data_item.id = item.id from rfl)]
        omega

theorem cacheStep_keeps_inv (item : Item)
    (criteria : List (String × String)) (c : Cache) (now : DateTime)
    (h : CacheInv c) : CacheInv (cacheStep item criteria c now) := by
  unfold CacheInv at h ⊢
  cases hfind : c.cached_mcp.find?
      (fun e => decide (e.data_item.id = item.id)) with
  | none =>
    rw [cacheStep, update_cache_of_find?_none item criteria c now hfind]
    simp only [applyUpdate]
    rw [List.pairwise_append]
    refine ⟨h, by simp, ?_⟩
    intro a ha b hb
    rw [List.mem_singleton] at hb
    subst hb
    have := List.find?_eq_none.mp hfind a ha
    simpa [entryFor] using this
  | some ex =>
    have hexid : ex.data_item.id = item.id := by
      simpa using List.find?_some hfind
    cases hparse : parseTimestamp ex.last_cached with
    | none =>
      rw [cacheStep, update_cache_of_parse_none item criteria c now ex hfind hparse]
      exact h
    | some last =>
      cases hfr : DateTime.ltb (subDays 3 now) last with
      | true =>
        rw [cacheStep,
          update_cache_of_fresh item criteria c now ex last hfind hparse hfr]
        exact h
      | false =>
        obtain ⟨l₁, l₂, hsplit, _, hupd⟩ :=
          update_cache_of_stale item criteria c now ex last hfind hparse hfr
        rw [cacheStep, hupd]
        simp only [applyUpdate]
        rw [hsplit] at h
        rw [List.pairwise_append] at h ⊢
        obtain ⟨hp₁, hp₂, hcross⟩ := h
        rw [List.pairwise_cons] at hp₂ ⊢
        refine ⟨hp₁, ⟨?_, hp₂.2⟩, ?_⟩
        · intro b hb
          have := hp₂.1 b hb
          simpa [entryFor, ← hexid] using this
        · intro a ha b hb
          rcases List.mem_cons.mp hb with rfl | hb2
          · have := hcross a ha ex (by simp)
            simpa [entryFor, ← hexid] using this
          · exact hcross a ha b (by simp [hb2])

theorem cacheSteps_maintains (item : Item)
    (criteria : List (String × String)) (ts : List DateTime) :
    ∀ c : Cache, CacheInv c → countId c.cached_mcp item.id = 1 →
      CacheInv (cacheSteps item criteria c ts) ∧
      countId (cacheSteps item criteria c ts).cached_mcp item.id = 1 := by
  induction ts with
  | nil => exact fun c h1 h2 => ⟨h1, h2⟩
  | cons t rest ih =>
    intro c h1 h2
    exact ih (cacheStep item criteria c t)
      (cacheStep_keeps_inv item criteria c t h1)
      (cacheStep_of_present item criteria c t h2)

/-! ## C4, C5, C10 -/

/-- C4: when the entry `update_cache` locates for the item's id has a
`last_cached` that parses and is strictly younger than 72 hours at
call time, the call takes the early `return`: no write happens and the
cache-file contents (every entry, every field) are exactly what they
were before the call. -/
theorem upsert_fresh_is_noop (item : Item)
    (criteria : List (String × String)) (cache : Cache) (now : DateTime)
    (e : CacheEntry) (last : DateTime)
    (hfind : cache.cached_mcp.find?
      (fun x => decide (x.data_item.id = item.id)) = some e)
    (hparse : parseTimestamp e.last_cached = some last)
    (hfresh : DateTime.ltb (subDays 3 now) last = true) :
    update_cache item criteria cache now = .noWrite ∧
    cacheStep item criteria cache now = cache := by
  have h := update_cache_of_fresh item criteria cache now e last hfind hparse hfresh
  exact ⟨h, by rw [cacheStep, h]; rfl⟩

/-- Cache entry for `itemA` whose timestamp is one day before `t0`. -/
def entryFresh : CacheEntry :=
  ⟨"https://a.example/mcp", true, "09.01.2024 00:00:00", defaultCriteria, itemA⟩

/-- Witness for C4 at a concrete input: an entry cached a day ago
(under the 10 Jan 2024 noon clock `t0`) makes the second upsert a
no-op. -/
theorem upsert_fresh_is_noop_witness :
    update_cache itemA defaultCriteria ⟨[entryFresh]⟩ t0 = .noWrite ∧
    cacheStep itemA defaultCriteria ⟨[entryFresh]⟩ t0 = ⟨[entryFresh]⟩ :=
  upsert_fresh_is_noop itemA defaultCriteria ⟨[entryFresh]⟩ t0 entryFresh
    ⟨2024, 1, 9, 0, 0, 0⟩ (by decide) (by decide) (by decide)

/-- C10: if the located entry for the upserted id has a `last_cached`
string the fixed format cannot parse, `update_cache` raises the parse
error (so it neither returns normally nor rewrites the cache file);
and this is the only way it can raise — with a parseable located entry
or with no matching entry at all, no error is possible. -/
theorem upsert_raises_on_unparseable (item : Item)
    (criteria : List (String × String)) (cache : Cache) (now : DateTime) :
    (∀ e, cache.cached_mcp.find?
        (fun x => decide (x.data_item.id = item.id)) = some e →
      parseTimestamp e.last_cached = none →
      update_cache item criteria cache now = .err e.last_cached ∧
      cacheStep item criteria cache now = cache) ∧
    (∀ e last, cache.cached_mcp.find?
        (fun x => decide (x.data_item.id = item.id)) = some e →
      parseTimestamp e.last_cached = some last →
      ∀ bad, update_cache item criteria cache now ≠ .err bad) ∧
    (cache.cached_mcp.find?
        (fun x => decide (x.data_item.id = item.id)) = none →
      ∀ bad, update_cache item criteria cache now ≠ .err bad) := by
  refine ⟨?_, ?_, ?_⟩
  · intro e hf hp
    have h := update_cache_of_parse_none item criteria cache now e hf hp
    exact ⟨h, by rw [cacheStep, h]; rfl⟩
  · intro e last hf hp bad
    cases hfr : DateTime.ltb (subDays 3 now) last with
    | false =>
      obtain ⟨l₁, l₂, _, _, hu⟩ :=
        update_cache_of_stale item criteria cache now e last hf hp hfr
      rw [hu]
      simp
    | true =>
      rw [update_cache_of_fresh item criteria cache now e last hf hp hfr]
      simp
  · intro hf bad
    rw [update_cache_of_find?_none item criteria cache now hf]
    simp

/-- Cache entry for `itemA` whose stored timestamp is not in the
`%d.%m.%Y %H:%M:%S` format. -/
def entryBadTime : CacheEntry :=
  ⟨"https://a.example/mcp", true, "not-a-timestamp", defaultCriteria, itemA⟩

/-- Witness for C10 at a concrete input: upserting over an entry whose
timestamp is `not-a-timestamp` raises, leaving the cache file as it
was. -/
theorem upsert_raises_on_unparseable_witness :
    update_cache itemA defaultCriteria ⟨[entryBadTime]⟩ t0 =
      .err "not-a-timestamp" ∧
    cacheStep itemA defaultCriteria ⟨[entryBadTime]⟩ t0 = ⟨[entryBadTime]⟩ :=
  (upsert_raises_on_unparseable itemA defaultCriteria ⟨[entryBadTime]⟩ t0).1
    entryBadTime (by decide) (by decide)

/-- C5: starting from a cache with at most one entry per
`data_item.id`, any nonempty sequence of upserts for one item across
any times leaves exactly one entry for that item's id (and keeps the
invariant); moreover a stale existing entry is replaced wholesale at
its existing list position, and an entry is appended only when no
entry with that id existed. -/
theorem upsert_replace_not_duplicate (item : Item)
    (criteria : List (String × String)) (c : Cache) (ts : List DateTime)
    (hinv : CacheInv c) (hne : ts ≠ []) :
    CacheInv (cacheSteps item criteria c ts) ∧
    countId (cacheSteps item criteria c ts).cached_mcp item.id = 1 ∧
    (∀ now, c.cached_mcp.find?
        (fun x => decide (x.data_item.id = item.id)) = none →
      update_cache item criteria c now =
        .wrote ⟨c.cached_mcp ++ [entryFor item criteria now]⟩) ∧
    (∀ now ex last, c.cached_mcp.find?
        (fun x => decide (x.data_item.id = item.id)) = some ex →
      parseTimestamp ex.last_cached = some last →
      DateTime.ltb (subDays 3 now) last = false →
      ∃ l₁ l₂, c.cached_mcp = l₁ ++ ex :: l₂ ∧
        update_cache item criteria c now =
          .wrote ⟨l₁ ++ entryFor item criteria now :: l₂⟩) := by
  obtain ⟨t, ts', rfl⟩ := List.exists_cons_of_ne_nil hne
  have hle := pairwise_countId_le_one c.cached_mcp hinv item.id
  have hfirst : countId (cacheStep item criteria c t).cached_mcp item.id = 1 := by
    cases h0 : countId c.cached_mcp item.id with
    | zero => exact cacheStep_of_absent item criteria c t h0
    | succ n =>
      have hn : countId c.cached_mcp item.id = 1 := by
        rw [h0] at hle ⊢
        omega
      exact cacheStep_of_present item criteria c t hn
  have hmain := cacheSteps_maintains item criteria ts'
    (cacheStep item criteria c t)
    (cacheStep_keeps_inv item criteria c t hinv) hfirst
  refine ⟨hmain.1, hmain.2, ?_, ?_⟩
  · exact fun now h => update_cache_of_find?_none item criteria c now h
  · intro now ex last hf hp hs
    obtain ⟨l₁, l₂, hsp, _, hu⟩ :=
      update_cache_of_stale item criteria c now ex last hf hp hs
    exact ⟨l₁, l₂, hsp, hu⟩

/-- Witness for C5 at a concrete input: one upsert of `itemA` into the
empty cache (which trivially satisfies the invariant) leaves exactly
one entry for `itemA.id`. -/
theorem upsert_replace_not_duplicate_witness :
    countId (cacheSteps itemA defaultCriteria ⟨[]⟩ [t0]).cached_mcp itemA.id = 1 :=
  (upsert_replace_not_duplicate itemA defaultCriteria ⟨[]⟩ [t0]
    (by decide) (by decide)).2.1
